import Mathlib

/-!
Verification of the dossier chunking engine
(`services/ingestion-service/services/chunking_service.py` and
`shared/models/document.py`), shallowly embedded over `List Char`.

Strings are modelled as `List Char` (`Str`).  Python floats are modelled as
exact rationals (`ℚ`); every float comparison proved below is far from any
rounding boundary.  All definitions are structurally recursive so that they
evaluate inside the kernel (`decide` / `rfl`).
-/

set_option maxRecDepth 100000

-- The rational operations are `@[irreducible]` upstream; re-allow unfolding
-- so that concrete chunks (whose metadata carries rational quality scores)
-- evaluate under `decide`.
attribute [local semireducible] Rat.add Rat.mul Rat.inv Rat.sub Rat.ofScientific

namespace Dossier

/-- Strings of the Python source, modelled as lists of unicode scalar values. -/
abbrev Str := List Char

/-- Python's `str` whitespace (the set matched by `\s` in `re` on `str`, by
`str.split()` with no argument and by `str.strip()`): ASCII space, TAB, LF,
VT, FF, CR, the C1 separators 1C–1F, NEL (U+0085), NBSP (U+00A0) and the
Unicode space separators. -/
def pyIsSpace (c : Char) : Bool :=
  c.toNat = 0x20 || c.toNat = 0x09 || c.toNat = 0x0A || c.toNat = 0x0B ||
  c.toNat = 0x0C || c.toNat = 0x0D ||
  (0x1C ≤ c.toNat && c.toNat ≤ 0x1F) || c.toNat = 0x85 || c.toNat = 0xA0 ||
  c.toNat = 0x1680 || (0x2000 ≤ c.toNat && c.toNat ≤ 0x200A) ||
  c.toNat = 0x2028 || c.toNat = 0x2029 || c.toNat = 0x202F ||
  c.toNat = 0x205F || c.toNat = 0x3000

/-- The control characters removed by `handle_edge_cases`: the regex class
`[\x01-\x08\x0B\x0C\x0E-\x1F\x7F]` of the source. -/
def isCtrl (c : Char) : Bool :=
  (0x01 ≤ c.toNat && c.toNat ≤ 0x08) || c.toNat = 0x0B || c.toNat = 0x0C ||
  (0x0E ≤ c.toNat && c.toNat ≤ 0x1F) || c.toNat = 0x7F

/-- Python `str.strip()` / the trailing `.strip()` calls of the source:
drop leading and trailing whitespace. -/
def pyStrip (l : Str) : Str :=
  ((l.dropWhile pyIsSpace).reverse.dropWhile pyIsSpace).reverse

/-- Python `str.strip('_')` used by `_sanitize_id_component`. -/
def stripChar (x : Char) (l : Str) : Str :=
  ((l.dropWhile (· = x)).reverse.dropWhile (· = x)).reverse

/-- Does a run of `n` consecutive whitespace characters start at the head?
(The anchored part of `re.search(r'\s{n,}', ...)`.) -/
def startsWsRun : ℕ → Str → Bool
  | 0, _ => true
  | _ + 1, [] => false
  | n + 1, c :: r => pyIsSpace c && startsWsRun n r

/-- Does the text contain `n` consecutive whitespace characters anywhere?
This is `re.search(r'\s{n,}', text) is not None` of the source. -/
def hasWsRun (n : ℕ) : Str → Bool
  | [] => n == 0
  | c :: r => startsWsRun n (c :: r) || hasWsRun n r

/-- One replaced-or-kept whitespace run of `re.sub(r'\s{3,}', ' ', ...)`:
a maximal run of three or more whitespace characters becomes one space,
shorter runs are kept. -/
def emitRun (run : Str) : Str :=
  if 3 ≤ run.length then [' '] else run

/-- Accumulator worker for `collapseWs`; `run` is the pending maximal
whitespace run (in order). -/
def collapseWsAux (run : Str) : Str → Str
  | [] => emitRun run
  | c :: r =>
    if pyIsSpace c then collapseWsAux (run ++ [c]) r
    else emitRun run ++ (c :: collapseWsAux [] r)

/-- `re.sub(r'\s{3,}', ' ', text)` of the source: every maximal run of three
or more whitespace characters collapses to a single space. -/
def collapseWs (l : Str) : Str := collapseWsAux [] l

/-- `text.replace('\r\n', '\n').replace('\r', '\n')` of the source: a CRLF
pair becomes one LF (leftmost non-overlapping scan), and a remaining bare CR
becomes LF — equivalently, one left-to-right scan converting each CRLF pair
and each lone CR to a single LF. -/
def crToLf : Str → Str
  | [] => []
  | [c] => [if c = '\r' then '\n' else c]
  | c :: d :: rest =>
    if c = '\r' then
      (if d = '\n' then '\n' :: crToLf rest else '\n' :: crToLf (d :: rest))
    else c :: crToLf (d :: rest)

/-- Fueled worker for `splitOnSub`; `acc` holds the current piece reversed.
Each step consumes at least one input character, so fuel
`text.length + 1` (as supplied by `splitOnSub`) never runs out. -/
def splitOnSubAux (sep : Str) : ℕ → Str → Str → List Str
  | 0, acc, rest => [acc.reverse ++ rest]
  | _ + 1, acc, [] => [acc.reverse]
  | fuel + 1, acc, c :: r =>
    if !sep.isEmpty && sep.isPrefixOf (c :: r) then
      acc.reverse :: splitOnSubAux sep fuel [] ((c :: r).drop sep.length)
    else
      splitOnSubAux sep fuel (c :: acc) r

/-- Python `text.split(sep)` for a non-empty literal separator (also the
behaviour of `re.split(re.escape(sep), text)`): leftmost non-overlapping
occurrences, empty pieces kept. -/
def splitOnSub (sep text : Str) : List Str :=
  splitOnSubAux sep (text.length + 1) [] text

/-- Fueled worker for `countSubstr`.  Each step consumes at least one input
character for a non-empty pattern, so fuel `text.length` never runs out. -/
def countSubstrF (sep : Str) : ℕ → Str → ℕ
  | 0, _ => 0
  | _ + 1, [] => 0
  | fuel + 1, c :: r =>
    if sep.isPrefixOf (c :: r) then 1 + countSubstrF sep fuel ((c :: r).drop sep.length)
    else countSubstrF sep fuel r

/-- Python `text.count(sep)` for a non-empty `sep`: non-overlapping
occurrences scanned left to right. -/
def countSubstr (sep text : Str) : ℕ := countSubstrF sep text.length text

/-- Python `sep in text` (substring containment, as used for the separator
search with `is_separator_regex=False`). -/
def containsSub (sep : Str) : Str → Bool
  | [] => sep.isEmpty
  | c :: r => sep.isPrefixOf (c :: r) || containsSub sep r

/-- Accumulator worker for `pySplitWs`; `acc` holds the current word
reversed. -/
def pySplitWsAux (acc : Str) : Str → List Str
  | [] => if acc.isEmpty then [] else [acc.reverse]
  | c :: r =>
    if pyIsSpace c then
      (if acc.isEmpty then [] else [acc.reverse]) ++ pySplitWsAux [] r
    else pySplitWsAux (c :: acc) r

/-- Python `text.split()` with no argument: split on whitespace runs,
dropping empty pieces. -/
def pySplitWs (l : Str) : List Str := pySplitWsAux [] l

/-! ### The Sanitizer: `ChunkingService.handle_edge_cases`

The four content edits of the source are named stage functions; the
composite `handle_edge_cases` threads them exactly as the source does. -/

/-- Step 1 of `handle_edge_cases`: `if '\x00' in cleaned: replace('\x00', '')`. -/
def stripNul (l : Str) : Str :=
  if l.contains '\x00' then l.filter (fun c => !(c = '\x00')) else l

/-- Step 2 of `handle_edge_cases`: remove the control characters when
`re.findall` found any. -/
def stripCtrl (l : Str) : Str :=
  if 0 < (l.filter isCtrl).length then l.filter (fun c => !(isCtrl c)) else l

/-- Step 3 of `handle_edge_cases`: collapse whitespace runs of three or more
when a run of ten or more exists anywhere. -/
def normWs (l : Str) : Str :=
  if hasWsRun 10 l then collapseWs l else l

/-- Step 5 of `handle_edge_cases`: normalize line endings when a CR is
present (`'\r\n' in c or '\r' in c` is equivalent to `'\r' in c`). -/
def normCr (l : Str) : Str :=
  if l.contains '\r' then crToLf l else l

/-- The content transformation performed by `handle_edge_cases`, without the
warning bookkeeping: the four stages followed by the final `.strip()`.  When
the stripped result is empty the source returns `""`, which coincides with
the stripped result, so this equals `(handle_edge_cases content).1` on every
input (`hec_fst` below). -/
def cleanContent (content : Str) : Str :=
  pyStrip (normCr (normWs (stripCtrl (stripNul content))))

/-- `ChunkingService.handle_edge_cases`, transcribed step by step.

The UTF-8 round-trip step of the source (`cleaned_content.encode('utf-8')`)
is a no-op here: Lean `Char` holds only valid unicode scalar values, which
always encode, so the `UnicodeEncodeError` branch is unreachable in the
model.  The `0.9` of the content-loss test is the exact rational `9/10`
(the source compares `final_length < original_length * 0.9` on floats; for
the length pairs arising below the comparison is never within a rounding
error of the boundary). -/
def handle_edge_cases (content : Str) : Str × List Str :=
  if content = [] then ([], [("Empty content provided").data]) else
  let original_length := content.length
  let c1 := stripNul content
  let w1 : List Str :=
    if content.contains '\x00' then [("Removed null bytes from content").data] else []
  let ctrlCount := (c1.filter isCtrl).length
  let c2 := stripCtrl c1
  let w2 : List Str :=
    if 0 < ctrlCount then
      [("Removed ").data ++ (Nat.repr ctrlCount).data ++ (" control characters").data]
    else []
  let c3 := normWs c2
  let w3 : List Str :=
    if hasWsRun 10 c2 then [("Normalized excessive whitespace").data] else []
  let longLines := ((splitOnSub ("\n").data c3).filter (fun ln => 1000 < ln.length)).length
  let w4 : List Str :=
    if 0 < longLines then
      [("Found ").data ++ (Nat.repr longLines).data ++ (" very long lines (>1000 chars)").data]
    else []
  let c4 := normCr c3
  let w5 : List Str := if c3.contains '\r' then [("Normalized line endings").data] else []
  let final_length := c4.length
  let w6 : List Str :=
    if 10 * final_length < 9 * original_length then
      [("Significant content loss during cleaning: ").data ++
        (Nat.repr original_length).data ++ (" -> ").data ++
        (Nat.repr final_length).data ++ (" chars").data]
    else []
  let warnings := w1 ++ w2 ++ w3 ++ w4 ++ w5 ++ w6
  if pyStrip c4 = [] then ([], warnings ++ [("Content became empty after cleaning").data])
  else (pyStrip c4, warnings)

/-! ### Identifier sanitization: `ChunkingService._sanitize_id_component` -/

/-- Python's `\w` on `str` (a "word character"), as a predicate on the code
point: exact on ASCII (`[A-Za-z0-9_]`) and on Latin-1 (the alphanumeric code
points of U+0080–U+00FF, including letters such as `é` and the numeric forms
`²³¹¼½¾`).  Code points above U+00FF are conservatively classified as word
characters; every theorem below evaluates this predicate only on ASCII and
Latin-1 characters. -/
def pyWordNat (n : ℕ) : Bool :=
  (0x61 ≤ n && n ≤ 0x7A) || (0x41 ≤ n && n ≤ 0x5A) ||
  (0x30 ≤ n && n ≤ 0x39) || n = 0x5F ||
  n = 0xAA || n = 0xB5 || n = 0xBA ||
  n = 0xB2 || n = 0xB3 || n = 0xB9 ||
  n = 0xBC || n = 0xBD || n = 0xBE ||
  (0xC0 ≤ n && n ≤ 0xFF && !(n = 0xD7) && !(n = 0xF7)) ||
  0x100 ≤ n

/-- Python's `\w` on a character. -/
def pyIsWordChar (c : Char) : Bool := pyWordNat c.toNat

/-- The ASCII word-character class `[A-Za-z0-9_]` named by the spec, on the
code point. -/
def asciiWordNat (n : ℕ) : Bool :=
  (0x61 ≤ n && n ≤ 0x7A) || (0x41 ≤ n && n ≤ 0x5A) ||
  (0x30 ≤ n && n ≤ 0x39) || n = 0x5F

/-- The ASCII word-character class `[A-Za-z0-9_]` on a character. -/
def asciiWordChar (c : Char) : Bool := asciiWordNat c.toNat

/-- `re.sub(r'_+', '_', ...)`: collapse each run of underscores to one.
The boolean argument records whether the previous character was an
underscore. -/
def collapseUndAux : Bool → Str → Str
  | _, [] => []
  | prev, c :: r =>
    if c = '_' then
      (if prev then collapseUndAux true r else '_' :: collapseUndAux true r)
    else c :: collapseUndAux false r

/-- `ChunkingService._sanitize_id_component`: replace every character that is
not a Python word character or `-` by `_`, collapse underscore runs, strip
leading/trailing underscores, and fall back to `"unknown"` when empty. -/
def sanitize_id_component (component : Str) : Str :=
  if component = [] then ("unknown").data else
  let s1 := component.map (fun c => if pyIsWordChar c || c = '-' then c else '_')
  let s2 := collapseUndAux false s1
  let s3 := stripChar '_' s2
  if s3 = [] then ("unknown").data else s3

/-- The id-component sanitizer as the SPEC describes it (C6): every character
outside `[A-Za-z0-9_-]` is replaced by `_`, underscore runs collapse, leading
and trailing underscores are trimmed, and an empty result becomes
`"unknown"`.  This definition follows the spec's words, for comparison with
`sanitize_id_component` above. -/
def sanitize_id_component_specAscii (component : Str) : Str :=
  if component = [] then ("unknown").data else
  let s1 := component.map (fun c => if asciiWordChar c || c = '-' then c else '_')
  let s2 := collapseUndAux false s1
  let s3 := stripChar '_' s2
  if s3 = [] then ("unknown").data else s3

/-! ### Counters and analyzers -/

/-- Worker for `count_sentences`: scan the text once; `inEnd` records whether
the previous character belonged to a run of `[.!?]`.  A run followed by a
whitespace character or the end of the text yields one match of
`[.!?]+(?:\s|$)`, and `re.findall` resumes after the consumed whitespace. -/
def csAux : Str → Bool → ℕ
  | [], inEnd => if inEnd then 1 else 0
  | c :: r, inEnd =>
    if c = '.' || c = '!' || c = '?' then csAux r true
    else if pyIsSpace c then (if inEnd then 1 else 0) + csAux r false
    else csAux r false

/-- `ChunkingService._count_sentences`:
`len(re.findall(r'[.!?]+(?:\s|$)', text))`. -/
def count_sentences (text : Str) : ℕ :=
  if text = [] then 0 else csAux text false

/-- `ChunkingService._count_paragraphs`: split on `"\n\n"` and count the
pieces that are non-empty after stripping. -/
def count_paragraphs (text : Str) : ℕ :=
  if text = [] then 0
  else ((splitOnSub ("\n\n").data text).filter (fun p => !(pyStrip p).isEmpty)).length

/-- `ChunkingService.analyze_semantic_boundaries`: the boundary-count map,
kept in the source's insertion order. -/
def analyze_semantic_boundaries (text : Str) : List (String × ℕ) :=
  if text = [] then []
  else
    [("paragraphs", countSubstr ("\n\n").data text),
     ("sentences", countSubstr (". ").data text + countSubstr ("! ").data text +
        countSubstr ("? ").data text),
     ("lines", countSubstr ("\n").data text),
     ("clauses", countSubstr ("; ").data text + countSubstr (": ").data text),
     ("phrases", countSubstr (", ").data text),
     ("words", (pySplitWs text).length),
     ("characters", text.length)]

/-! ### Configuration -/

/-- `ChunkingConfig` with the source's field defaults, including the
non-empty default `separators` list of lines 24–44.  Integer fields are
Python `int`s, modelled as `ℤ`. -/
structure ChunkingConfig where
  chunk_size : ℤ := 1000
  chunk_overlap : ℤ := 200
  separators : List Str :=
    [("\n\n\n").data, ("\n\n").data,
     (". ").data, ("! ").data, ("? ").data,
     ("; ").data, (": ").data, (", ").data,
     ("\n").data,
     (" ").data, ("").data]
  min_chunk_size : ℤ := 50
  max_chunk_size : ℤ := 2000
  preserve_sentence_boundaries : Bool := true
  preserve_paragraph_boundaries : Bool := true
deriving DecidableEq, Repr

/-- The default-constructed configuration `ChunkingConfig()`. -/
def defaultChunkingConfig : ChunkingConfig := {}

/-- Construction of a `ChunkingConfig`.  The source class is a plain pydantic
`BaseModel` with `int`/`bool`/`List[str]` fields and **no validators**: once
the arguments have their declared types (as they do here), construction
always succeeds.  The `Except` result records that no error path exists. -/
def ChunkingConfig.construct (chunk_size chunk_overlap : ℤ) (separators : List Str)
    (min_chunk_size max_chunk_size : ℤ)
    (preserve_sentence_boundaries preserve_paragraph_boundaries : Bool) :
    Except String ChunkingConfig :=
  .ok ⟨chunk_size, chunk_overlap, separators, min_chunk_size, max_chunk_size,
       preserve_sentence_boundaries, preserve_paragraph_boundaries⟩

/-- Modelled from the spec: §7(a) locates overlap/size rejection.  In the
source, `ChunkingService.__init__` → `_setup_splitter` delegates to the
langchain `RecursiveCharacterTextSplitter` constructor (not part of this
repository), which raises `ValueError("Got a larger chunk overlap ...")`
precisely when `chunk_overlap > chunk_size`; no other validation happens at
service construction. -/
def chunking_service_init (c : ChunkingConfig) : Except String ChunkingConfig :=
  if c.chunk_size < c.chunk_overlap then
    .error "Got a larger chunk overlap than chunk size, should be smaller"
  else .ok c

/-- `ChunkingService._get_semantic_separators`: derive the semantic separator
list from the boundary-preservation flags, but return the configured
`self.config.separators` whenever that list is (truthy, i.e.) non-empty. -/
def get_semantic_separators (c : ChunkingConfig) : List Str :=
  let separators :=
    (if c.preserve_paragraph_boundaries then [("\n\n\n").data, ("\n\n").data] else []) ++
    (if c.preserve_sentence_boundaries then
      [(". ").data, ("! ").data, ("? ").data, (".\n").data, ("!\n").data, ("?\n").data]
     else []) ++
    [("; ").data, (": ").data, (", ").data, (" - ").data, (" – ").data, (" — ").data] ++
    [("\n").data] ++
    [(" ").data, ("").data]
  if !c.separators.isEmpty then c.separators else separators

/-! ### Quality scoring: `ChunkingService._calculate_quality_score` -/

/-- The punctuation set `'.,;:!?()-[]{}'` of factor 5 (braces written by
code point). -/
def specialChars : Str :=
  (".,;:!?()-[]").data ++ [Char.ofNat 123, Char.ofNat 125]

/-- Factor 1 of `_calculate_quality_score` (length appropriateness, weight
0.3); `0.7` is the exact rational `7/10`. -/
def qualityLength (cfg : ChunkingConfig) (length : ℤ) : ℚ :=
  if cfg.min_chunk_size ≤ length ∧ length ≤ cfg.max_chunk_size then
    (if (cfg.chunk_size : ℚ) * (7/10) ≤ (length : ℚ) then 3/10 else 2/10)
  else if length < cfg.min_chunk_size then 1/10
  else 15/100

/-- Factor 2 of `_calculate_quality_score` (sentence completeness, weight
0.25): `content.count('.') + count('!') + count('?')` and
`content.strip().endswith(('.', '!', '?'))`. -/
def qualitySentence (content : Str) : ℚ :=
  let sentence_endings :=
    (content.filter (fun c => c = '.')).length +
    (content.filter (fun c => c = '!')).length +
    (content.filter (fun c => c = '?')).length
  if 0 < sentence_endings then
    (if (pyStrip content).getLast?.any (fun c => c = '.' || c = '!' || c = '?')
     then 25/100 else 15/100)
  else 5/100

/-- Factor 3 of `_calculate_quality_score` (word density, weight 0.2);
nothing is added when `content.split()` is empty (the source has no `else`
branch there). -/
def qualityWords (content : Str) : ℚ :=
  let words := pySplitWs content
  if !words.isEmpty then
    (let avg : ℚ := ((words.map List.length).sum : ℚ) / (words.length : ℚ)
     if 3 ≤ avg ∧ avg ≤ 7 then 2/10 else 1/10)
  else 0

/-- Factor 4 of `_calculate_quality_score` (paragraph structure, weight
0.15): `paragraphs = content.count('\n\n')`. -/
def qualityParagraph (cfg : ChunkingConfig) (content : Str) (length : ℤ) : ℚ :=
  let paragraphs := countSubstr ("\n\n").data content
  if paragraphs = 0 ∧ length < cfg.chunk_size then 15/100
  else if 0 < paragraphs then 1/10
  else 5/100

/-- Factor 5 of `_calculate_quality_score` (punctuation presence, weight
0.1). -/
def qualitySpecial (content : Str) : ℚ :=
  if 0 < (content.filter (fun c => specialChars.contains c)).length then 1/10
  else 5/100

/-- `ChunkingService._calculate_quality_score`: five additive factors capped
at 1.  Floats are modelled as exact rationals. -/
def calculate_quality_score (cfg : ChunkingConfig) (content : Str) : ℚ :=
  if content.isEmpty || (pyStrip content).isEmpty then 0 else
  min 1 (qualityLength cfg content.length + qualitySentence content +
    qualityWords content + qualityParagraph cfg content content.length +
    qualitySpecial content)

/-! ### The Recursive Splitter

Modelled from the spec: §4.3's Recursive Splitter is realized in the source
by the langchain `RecursiveCharacterTextSplitter` (an external library, not
part of this repository), instantiated with `keep_separator=False`,
`is_separator_regex=False`, `length_function=len` and default
`strip_whitespace=True`.  The definitions below transcribe that library's
`split_text` / `_split_text` / `_split_text_with_regex` / `_merge_splits` /
`_join_docs` under those settings. -/

/-- The separator-selection loop at the head of `_split_text`: the first
separator that is empty or occurs in the text is chosen, together with the
remaining separators; if none matches, the last separator is chosen with no
remaining ones. -/
def chooseSep (text : Str) : List Str → Option (Str × List Str)
  | [] => none
  | s :: rest =>
    if s.isEmpty then some ([], [])
    else if containsSub s text then some (s, rest)
    else chooseSep text rest

/-- `_split_text_with_regex` with `keep_separator=False`: split on the
separator (character-by-character for the empty separator) and drop empty
pieces. -/
def splitTextOn (sep text : Str) : List Str :=
  (if sep.isEmpty then text.map (fun c => [c]) else splitOnSub sep text).filter
    (fun s => !s.isEmpty)

/-- `_join_docs`: join with the separator, strip (`strip_whitespace=True`),
and drop the document if the result is empty. -/
def joinDocs (docs : List Str) (sep : Str) : Option Str :=
  let text := pyStrip (List.intercalate sep docs)
  if text = [] then none else some text

/-- The inner `while` loop of `_merge_splits`, popping the front of
`current_doc` while the running total is above the overlap or the next piece
would not fit.  The source pops `current_doc[0]` unconditionally inside the
loop; with a non-negative `chunk_overlap` the loop condition is false
whenever `current_doc` is empty (then `total = 0`), so stopping on the empty
list is faithful (a negative overlap would make the source raise
`IndexError` here). -/
def popLoop (size overlap sepLen dLen : ℤ) : List Str → ℤ → List Str × ℤ
  | [], total => ([], total)
  | h :: t, total =>
    if overlap < total ∨ (size < total + dLen + sepLen ∧ 0 < total) then
      popLoop size overlap sepLen dLen t
        (total - ((h.length : ℤ) + (if 1 < (h :: t).length then sepLen else 0)))
    else (h :: t, total)

/-- The main loop of `_merge_splits` over the splits, carrying the emitted
documents, the current window and its running total length. -/
def mergeAux (size overlap sepLen : ℤ) (sep : Str) :
    List Str → List Str → List Str → ℤ → List Str
  | [], docs, current, _ => docs ++ (joinDocs current sep).toList
  | d :: rest, docs, current, total =>
    let dLen : ℤ := d.length
    if size < total + dLen + (if 0 < current.length then sepLen else 0) then
      let docs' := if 0 < current.length then docs ++ (joinDocs current sep).toList else docs
      let ct := if 0 < current.length then popLoop size overlap sepLen dLen current total
                else (current, total)
      let current' := ct.1 ++ [d]
      mergeAux size overlap sepLen sep rest docs' current'
        (ct.2 + dLen + (if 1 < current'.length then sepLen else 0))
    else
      let current' := current ++ [d]
      mergeAux size overlap sepLen sep rest docs current'
        (total + dLen + (if 1 < current'.length then sepLen else 0))

/-- `_merge_splits(splits, separator)`: greedily pack pieces into documents
of at most `chunk_size` characters, keeping `chunk_overlap` characters of
trailing context. -/
def mergeSplits (size overlap : ℤ) (sep : Str) (splits : List Str) : List Str :=
  mergeAux size overlap (sep.length : ℤ) sep splits [] [] 0

/-- The split-processing loop of `_split_text` over the pieces: pieces
shorter than `chunk_size` accumulate in `goods`; an over-long piece first
flushes the accumulated goods through `_merge_splits`, then is either
appended raw (no separators left) or split recursively. -/
def processSplits (size : ℤ) (recurse : Str → List Str) (hasNew : Bool)
    (merge : List Str → List Str) : List Str → List Str → List Str → List Str
  | [], goods, final => final ++ (if !goods.isEmpty then merge goods else [])
  | s :: rest, goods, final =>
    if (s.length : ℤ) < size then
      processSplits size recurse hasNew merge rest (goods ++ [s]) final
    else
      processSplits size recurse hasNew merge rest []
        ((final ++ (if !goods.isEmpty then merge goods else [])) ++
         (if hasNew then recurse s else [s]))

/-- `_split_text(text, separators)`, structurally recursive on a fuel that
dominates the separator-list length: every recursive call uses the strictly
shorter `newSeps`, so with the fuel `separators.length + 1` supplied by
`split_text` the fuel-exhausted branch is unreachable. -/
def splitTextF : ℕ → ℤ → ℤ → List Str → Str → List Str
  | 0, _, _, _, text => [text]
  | fuel + 1, size, overlap, seps, text =>
    let sn : Str × List Str :=
      match chooseSep text seps with
      | some r => r
      | none => (seps.getLast?.getD [], [])
    let splits := splitTextOn sn.1 text
    processSplits size (fun s => splitTextF fuel size overlap sn.2 s)
      (!sn.2.isEmpty) (mergeSplits size overlap sn.1) splits [] []

/-- `RecursiveCharacterTextSplitter.split_text` with the service's separator
policy and configuration. -/
def split_text (cfg : ChunkingConfig) (text : Str) : List Str :=
  let seps := get_semantic_separators cfg
  splitTextF (seps.length + 1) cfg.chunk_size cfg.chunk_overlap seps text

/-! ### Document model (`shared/models/document.py`) -/

/-- `DocumentMetadata`.  `timestamp` is an abstract clock value (`ℕ`);
`quality_score`, `processing_time_ms` are rationals standing for the
source's floats.  The `overlap_with_previous`/`overlap_with_next` fields
keep their defaults (`0`) throughout the source and are omitted. -/
structure DocumentMetadata where
  chunk_index : ℕ
  total_chunks : ℕ
  timestamp : ℕ
  source_url : Option Str
  content_length : ℕ
  word_count : ℕ
  sentence_count : ℕ
  paragraph_count : ℕ
  chunking_strategy : Str
  semantic_boundaries : List (String × ℕ)
  quality_score : ℚ
  processing_time_ms : ℚ
  error_count : ℕ
  warnings : List Str
deriving DecidableEq, Repr

/-- `DocumentChunk`. -/
structure DocumentChunk where
  id : Str
  doctype : Str
  docname : Str
  field_name : Str
  content : Str
  metadata : DocumentMetadata
  embedding : Option (List ℚ)
deriving DecidableEq, Repr

/-- The ambient clock: for each chunk-creation call (keyed by the chunk
index) a wall-clock timestamp (`datetime.utcnow()`) and an elapsed-time
reading in milliseconds (`(time.time() - start_time) * 1000`). -/
def TimeEnv := ℕ → ℕ × ℚ

/-! ### Chunk factory and chunking pipeline -/

/-- `ChunkingService._create_document_chunk`.  The clock reads come from
`env chunk_index`.  Python's `processing_time_ms or (...)` falls through on
the falsy `0.0`, hence the explicit zero test. -/
def create_document_chunk (cfg : ChunkingConfig)
    (doctype docname field_name content : Str)
    (chunk_index total_chunks : ℕ) (source_url : Option Str)
    (processing_time_ms : Option ℚ) (warnings : Option (List Str))
    (env : TimeEnv) : DocumentChunk :=
  let chunk_id :=
    sanitize_id_component doctype ++ ("_").data ++
    sanitize_id_component docname ++ ("_").data ++
    sanitize_id_component field_name ++ ("_").data ++ (Nat.repr chunk_index).data
  let word_count := if (pyStrip content).isEmpty then 0 else (pySplitWs content).length
  let metadata : DocumentMetadata :=
    { chunk_index := chunk_index
      total_chunks := total_chunks
      timestamp := (env chunk_index).1
      source_url := source_url
      content_length := content.length
      word_count := word_count
      sentence_count := count_sentences content
      paragraph_count := count_paragraphs content
      chunking_strategy := ("recursive").data
      semantic_boundaries := analyze_semantic_boundaries content
      quality_score := calculate_quality_score cfg content
      processing_time_ms :=
        match processing_time_ms with
        | some t => if t = 0 then (env chunk_index).2 else t
        | none => (env chunk_index).2
      error_count := 0
      warnings := warnings.getD [] }
  { id := chunk_id
    doctype := doctype
    docname := docname
    field_name := field_name
    content := content
    metadata := metadata
    embedding := none }

/-- `ChunkingService._create_single_chunk`. -/
def create_single_chunk (cfg : ChunkingConfig)
    (doctype docname field_name content : Str) (source_url : Option Str)
    (warnings : Option (List Str)) (env : TimeEnv) : List DocumentChunk :=
  [create_document_chunk cfg doctype docname field_name content 0 1 source_url
    none warnings env]

/-- The chunk-building loop of `chunk_document_field` (lines 180–195):
enumerate the splitter's pieces, skip the ones that strip to empty, and
create a chunk from each remaining piece with its **enumeration** index and
the splitter-output count as `total_chunks`. -/
def build_chunks (cfg : ChunkingConfig) (doctype docname field_name : Str)
    (source_url : Option Str) (warnings : List Str) (env : TimeEnv)
    (total : ℕ) : List Str → ℕ → List DocumentChunk
  | [], _ => []
  | t :: rest, i =>
    if pyStrip t = [] then build_chunks cfg doctype docname field_name source_url warnings env total rest (i + 1)
    else
      create_document_chunk cfg doctype docname field_name (pyStrip t) i total
        source_url none (some warnings) env ::
      build_chunks cfg doctype docname field_name source_url warnings env total rest (i + 1)

/-- `ChunkingService.chunk_document_field`, parameterized over the outcome of
the guarded splitter call: `some l` models `self.splitter.split_text(...)`
returning `l`, `none` models the splitter raising (the `except` branch, which
falls back to a single chunk over the cleaned content without warnings). -/
def chunk_document_field_core (cfg : ChunkingConfig)
    (doctype docname field_name content : Str) (source_url : Option Str)
    (splitRes : Option (List Str)) (env : TimeEnv) : List DocumentChunk :=
  if pyStrip content = [] then [] else
  if (handle_edge_cases content).1 = [] then [] else
  if ((handle_edge_cases content).1.length : ℤ) < cfg.min_chunk_size then
    create_single_chunk cfg doctype docname field_name (handle_edge_cases content).1
      source_url (some (handle_edge_cases content).2) env
  else
    match splitRes with
    | none =>
      create_single_chunk cfg doctype docname field_name (handle_edge_cases content).1
        source_url none env
    | some text_chunks =>
      if text_chunks = [] then []
      else build_chunks cfg doctype docname field_name source_url
        (handle_edge_cases content).2 env text_chunks.length text_chunks 0

/-- `ChunkingService.chunk_document_field` with the embedded splitter (the
splitter itself is total, so the exception fallback of the source does not
fire here). -/
def chunk_document_field (cfg : ChunkingConfig)
    (doctype docname field_name content : Str) (source_url : Option Str)
    (env : TimeEnv) : List DocumentChunk :=
  chunk_document_field_core cfg doctype docname field_name content source_url
    (some (split_text cfg (handle_edge_cases content).1)) env

/-! ### Validator / repairer -/

/-- `ChunkingService.validate_chunk`: size window, non-whitespace content and
(truthy, i.e. non-empty) required fields. -/
def validate_chunk (cfg : ChunkingConfig) (chunk : DocumentChunk) : Bool :=
  !((chunk.content.length : ℤ) < cfg.min_chunk_size) &&
  !(cfg.max_chunk_size < (chunk.content.length : ℤ)) &&
  !(pyStrip chunk.content).isEmpty &&
  (!chunk.doctype.isEmpty && !chunk.docname.isEmpty && !chunk.field_name.isEmpty)

/-- The per-chunk body of `validate_and_repair_chunks`: re-sanitize the
content; on a non-empty result, extend the warnings (setting `error_count`
to the count of the **newly added** warnings), recompute the content-derived
metadata when the content changed, and keep the chunk only if it validates.
`none` models the dropped-chunk outcomes. -/
def repair_chunk (cfg : ChunkingConfig) (chunk : DocumentChunk) :
    Option DocumentChunk :=
  let cw := handle_edge_cases chunk.content
  if cw.1 = [] then none else
  let md1 :=
    if !cw.2.isEmpty then
      { chunk.metadata with
          warnings := chunk.metadata.warnings ++ cw.2
          error_count := cw.2.length }
    else chunk.metadata
  let md2 :=
    if !(cw.1 = chunk.content) then
      { md1 with
          content_length := cw.1.length
          word_count := if (pyStrip cw.1).isEmpty then 0 else (pySplitWs cw.1).length
          sentence_count := count_sentences cw.1
          paragraph_count := count_paragraphs cw.1
          semantic_boundaries := analyze_semantic_boundaries cw.1
          quality_score := calculate_quality_score cfg cw.1 }
    else md1
  let repaired : DocumentChunk := { chunk with content := cw.1, metadata := md2 }
  if validate_chunk cfg repaired then some repaired else none

/-- `ChunkingService.validate_and_repair_chunks`. -/
def validate_and_repair_chunks (cfg : ChunkingConfig)
    (chunks : List DocumentChunk) : List DocumentChunk :=
  chunks.filterMap (repair_chunk cfg)

/-- The derived separator list exactly as claim C4 words it: paragraph
separators iff `preserve_paragraph_boundaries`, sentence separators (space
and newline variants) iff `preserve_sentence_boundaries`, then clause and
dash separators, single newline, space and the empty-string fallback.  This
definition follows the claim's words, for comparison with
`get_semantic_separators`. -/
def claimedDerivedSeparators (pp ps : Bool) : List Str :=
  (if pp then [("\n\n\n").data, ("\n\n").data] else []) ++
  (if ps then
    [(". ").data, ("! ").data, ("? ").data, (".\n").data, ("!\n").data, ("?\n").data]
   else []) ++
  [("; ").data, (": ").data, (", ").data, (" - ").data, (" – ").data, (" — ").data,
   ("\n").data, (" ").data, ("").data]

/-- The deterministic projection of a chunk compared by the determinism
property (C9): content, id and semantic-boundary map — everything except the
clock-derived metadata. -/
def chunkKey (ch : DocumentChunk) : Str × Str × List (String × ℕ) :=
  (ch.content, ch.id, ch.metadata.semantic_boundaries)

/-! ### Concrete fixtures used by witnesses and counterexamples -/

/-- A fixed clock environment for concrete evaluations. -/
def sampleEnv : TimeEnv := fun _ => (0, 0)

/-- A legal custom configuration (accepted by construction and by the
splitter library's `overlap ≤ size` check): split on the literal `"X"` with
`chunk_size = 2`. -/
def counterexampleConfig : ChunkingConfig :=
  { chunk_size := 2, chunk_overlap := 0, separators := [("X").data],
    min_chunk_size := 1 }

/-- Simple metadata for a hand-built chunk. -/
def sampleMetadata : DocumentMetadata :=
  { chunk_index := 0, total_chunks := 1, timestamp := 0, source_url := none,
    content_length := 1001, word_count := 1, sentence_count := 0,
    paragraph_count := 1, chunking_strategy := ("recursive").data,
    semantic_boundaries := [], quality_score := 0, processing_time_ms := 0,
    error_count := 0, warnings := [] }

/-- A chunk whose content is one 1001-character line: the sanitizer leaves
the content unchanged but emits the long-line warning. -/
def longLineChunk : DocumentChunk :=
  { id := ("t_d_f_0").data, doctype := ("t").data, docname := ("d").data,
    field_name := ("f").data, content := List.replicate 1001 'a',
    metadata := sampleMetadata, embedding := none }

/-- The expected repair of `longLineChunk`: content unchanged, the long-line
warning appended, `error_count` set to the number of newly added warnings. -/
def longLineChunkRepaired : DocumentChunk :=
  { longLineChunk with
      metadata := { sampleMetadata with
        warnings := [("Found 1 very long lines (>1000 chars)").data]
        error_count := 1 } }

/-! ## Lemmas about the basic string functions -/

lemma dropWhile_eq_self_of_head (p : Char → Bool) (l : Str)
    (h : ∀ c, l.head? = some c → p c = false) : l.dropWhile p = l := by
  cases l with
  | nil => rfl
  | cons c r =>
    have hc := h c rfl
    simp [List.dropWhile, hc]

lemma pyStrip_subset (l : Str) : ∀ c ∈ pyStrip l, c ∈ l := by
  intro c hc
  unfold pyStrip at hc
  rw [List.mem_reverse] at hc
  have h1 := List.dropWhile_sublist (l := (l.dropWhile pyIsSpace).reverse) (p := pyIsSpace)
  have h2 := h1.mem hc
  rw [List.mem_reverse] at h2
  exact (List.dropWhile_sublist (l := l) (p := pyIsSpace)).mem h2

lemma pyStrip_isPart (l : Str) : pyStrip l <:+: l := by
  unfold pyStrip
  have h1 : ((l.dropWhile pyIsSpace).reverse.dropWhile pyIsSpace).reverse <+:
      l.dropWhile pyIsSpace := by
    rw [← List.reverse_suffix]
    simpa using List.dropWhile_suffix (p := pyIsSpace) (l := (l.dropWhile pyIsSpace).reverse)
  exact h1.isInfix.trans (List.dropWhile_suffix pyIsSpace).isInfix

lemma pyStrip_eq_nil_iff (l : Str) : pyStrip l = [] ↔ ∀ c ∈ l, pyIsSpace c = true := by
  unfold pyStrip
  rw [List.reverse_eq_nil_iff, List.dropWhile_eq_nil_iff]
  constructor
  · intro h c hc
    have hsplit := List.takeWhile_append_dropWhile (p := pyIsSpace) (l := l)
    rw [← hsplit] at hc
    rcases List.mem_append.1 hc with h1 | h2
    · exact List.mem_takeWhile_imp h1
    · exact h c (by simpa using h2)
  · intro h x hx
    rw [List.mem_reverse] at hx
    exact h x (List.dropWhile_sublist pyIsSpace |>.mem hx)

lemma pyStrip_head_not_space (l : Str) (c : Char) (h : (pyStrip l).head? = some c) :
    pyIsSpace c = false := by
  unfold pyStrip at h
  rw [List.head?_reverse] at h
  -- c is the last element of dropWhile over the reversed list
  have h1 : ((l.dropWhile pyIsSpace).reverse.dropWhile pyIsSpace) <:+
      (l.dropWhile pyIsSpace).reverse := List.dropWhile_suffix pyIsSpace
  rcases h1 with ⟨pre, hpre⟩
  have hne : (l.dropWhile pyIsSpace).reverse.dropWhile pyIsSpace ≠ [] := by
    intro hnil
    rw [hnil] at h
    simp at h
  have hlast : (l.dropWhile pyIsSpace).reverse.getLast? = some c := by
    rw [← hpre]
    rwa [List.getLast?_append_of_ne_nil _ hne]
  rw [List.getLast?_reverse] at hlast
  have := List.head?_dropWhile_not pyIsSpace l
  rw [hlast] at this
  simpa using this

lemma pyStrip_getLast_not_space (l : Str) (c : Char)
    (h : (pyStrip l).getLast? = some c) : pyIsSpace c = false := by
  unfold pyStrip at h
  rw [List.getLast?_reverse] at h
  have := List.head?_dropWhile_not pyIsSpace (l.dropWhile pyIsSpace).reverse
  rw [h] at this
  simpa using this

lemma pyStrip_eq_self (l : Str)
    (h1 : ∀ c, l.head? = some c → pyIsSpace c = false)
    (h2 : ∀ c, l.getLast? = some c → pyIsSpace c = false) : pyStrip l = l := by
  unfold pyStrip
  rw [dropWhile_eq_self_of_head _ _ h1]
  rw [dropWhile_eq_self_of_head _ _ (by
    intro c hc
    rw [List.head?_reverse] at hc
    exact h2 c hc)]
  exact l.reverse_reverse

lemma pyStrip_idem (l : Str) : pyStrip (pyStrip l) = pyStrip l :=
  pyStrip_eq_self _ (pyStrip_head_not_space l) (pyStrip_getLast_not_space l)

lemma pySplitWsAux_ne_nil_of_acc (l : Str) : ∀ acc : Str, acc ≠ [] →
    pySplitWsAux acc l ≠ [] := by
  induction l with
  | nil =>
    intro acc hacc
    simp [pySplitWsAux, List.isEmpty_iff, hacc]
  | cons c r ih =>
    intro acc hacc
    by_cases hws : pyIsSpace c
    · simp [pySplitWsAux, hws, List.isEmpty_iff, hacc]
    · simpa [pySplitWsAux, hws] using ih (c :: acc) (by simp)

lemma pySplitWsAux_ne_nil (l : Str) (h : ∃ c ∈ l, pyIsSpace c = false) :
    ∀ acc : Str, pySplitWsAux acc l ≠ [] := by
  induction l with
  | nil => simp at h
  | cons c r ih =>
    intro acc
    by_cases hws : pyIsSpace c
    · have hr : ∃ d ∈ r, pyIsSpace d = false := by
        rcases h with ⟨d, hd, hdws⟩
        rcases List.mem_cons.1 hd with rfl | hdr
        · rw [hws] at hdws; cases hdws
        · exact ⟨d, hdr, hdws⟩
      have := ih hr []
      simp only [pySplitWsAux, hws, if_true]
      intro hcontra
      exact this (List.append_eq_nil.1 hcontra).2
    · simpa [pySplitWsAux, hws] using
        pySplitWsAux_ne_nil_of_acc r (c :: acc) (by simp)

lemma pySplitWs_ne_nil (l : Str) (h : pyStrip l ≠ []) : pySplitWs l ≠ [] := by
  apply pySplitWsAux_ne_nil
  by_contra hall
  push_neg at hall
  exact h ((pyStrip_eq_nil_iff l).2 (by
    intro c hc
    have := hall c hc
    revert this
    cases pyIsSpace c <;> simp))

/-! ## C8 and C10: quality-score bounds -/

lemma qualityLength_floor (cfg : ChunkingConfig) (length : ℤ) :
    1/10 ≤ qualityLength cfg length := by
  unfold qualityLength; split_ifs <;> norm_num

lemma qualitySentence_floor (content : Str) : 1/20 ≤ qualitySentence content := by
  simp only [qualitySentence]
  split_ifs <;> norm_num

lemma qualityWords_nonneg (content : Str) : 0 ≤ qualityWords content := by
  simp only [qualityWords]
  split_ifs <;> norm_num

lemma qualityWords_floor (content : Str) (h : pySplitWs content ≠ []) :
    1/10 ≤ qualityWords content := by
  simp only [qualityWords]
  rw [if_pos (by simp [List.isEmpty_iff, h])]
  split_ifs <;> norm_num

lemma qualityParagraph_floor (cfg : ChunkingConfig) (content : Str) (length : ℤ) :
    1/20 ≤ qualityParagraph cfg content length := by
  simp only [qualityParagraph]
  split_ifs <;> norm_num

lemma qualitySpecial_floor (content : Str) : 1/20 ≤ qualitySpecial content := by
  unfold qualitySpecial; split_ifs <;> norm_num

/-- C8: for every configuration and content string the quality score lies in
`[0, 1]`, and it is exactly `0` for content that is empty or whitespace-only
(i.e. strips to empty). -/
theorem quality_score_bounds (cfg : ChunkingConfig) (content : Str) :
    (0 ≤ calculate_quality_score cfg content ∧ calculate_quality_score cfg content ≤ 1) ∧
    (pyStrip content = [] → calculate_quality_score cfg content = 0) := by
  refine ⟨⟨?_, ?_⟩, ?_⟩
  · unfold calculate_quality_score
    split
    · norm_num
    · refine le_min (by norm_num) ?_
      have h1 := qualityLength_floor cfg content.length
      have h2 := qualitySentence_floor content
      have h3 := qualityWords_nonneg content
      have h4 := qualityParagraph_floor cfg content content.length
      have h5 := qualitySpecial_floor content
      linarith
  · unfold calculate_quality_score
    split
    · norm_num
    · exact min_le_left _ _
  · intro h
    unfold calculate_quality_score
    rw [if_pos]
    simp [h]

/-- Witness for C8 at a concrete whitespace-only input, exercising the
zero clause. -/
theorem quality_score_bounds_witness :
    (0 ≤ calculate_quality_score defaultChunkingConfig [' ', '\t'] ∧
     calculate_quality_score defaultChunkingConfig [' ', '\t'] ≤ 1) ∧
    calculate_quality_score defaultChunkingConfig [' ', '\t'] = 0 := by
  have h := quality_score_bounds defaultChunkingConfig [' ', '\t']
  exact ⟨h.1, h.2 (by decide)⟩

/-- C10: every content string that is non-empty after stripping scores at
least `0.35`: each of the five factors contributes its positive floor, and
the word list of a trimmed-non-empty string is never empty. -/
theorem quality_score_floor (cfg : ChunkingConfig) (content : Str)
    (h : pyStrip content ≠ []) : 35/100 ≤ calculate_quality_score cfg content := by
  have hwords : pySplitWs content ≠ [] := pySplitWs_ne_nil content h
  have hc : content ≠ [] := by rintro rfl; exact h rfl
  unfold calculate_quality_score
  rw [if_neg (by simp [List.isEmpty_iff, h, hc])]
  refine le_min (by norm_num) ?_
  have h1 := qualityLength_floor cfg content.length
  have h2 := qualitySentence_floor content
  have h3 := qualityWords_floor content hwords
  have h4 := qualityParagraph_floor cfg content content.length
  have h5 := qualitySpecial_floor content
  linarith

/-- Witness for C10 at a concrete short string. -/
theorem quality_score_floor_witness :
    35/100 ≤ calculate_quality_score defaultChunkingConfig ("Hi").data :=
  quality_score_floor defaultChunkingConfig ("Hi").data (by decide)

/-! ## Whitespace-run lemmas (for the sanitizer idempotence proof) -/

lemma startsWsRun_le_length : ∀ {n : ℕ} {l : Str}, startsWsRun n l = true → n ≤ l.length := by
  intro n
  induction n with
  | zero => intro l _; exact Nat.zero_le _
  | succ m ih =>
    intro l h
    cases l with
    | nil => cases h
    | cons c r =>
      rw [startsWsRun, Bool.and_eq_true] at h
      simpa using Nat.succ_le_succ (ih h.2)

lemma startsWsRun_mono : ∀ {m n : ℕ} {l : Str}, m ≤ n →
    startsWsRun n l = true → startsWsRun m l = true := by
  intro m
  induction m with
  | zero => intro n l _ _; rfl
  | succ k ih =>
    intro n l hmn h
    cases n with
    | zero => exact absurd hmn (by omega)
    | succ n' =>
      cases l with
      | nil => cases h
      | cons c r =>
        rw [startsWsRun, Bool.and_eq_true] at h
        rw [startsWsRun, Bool.and_eq_true]
        exact ⟨h.1, ih (Nat.le_of_succ_le_succ hmn) h.2⟩

lemma startsWsRun_append (v : Str) : ∀ {n : ℕ} {l : Str},
    startsWsRun n l = true → startsWsRun n (l ++ v) = true := by
  intro n
  induction n with
  | zero => intro l _; rfl
  | succ m ih =>
    intro l h
    cases l with
    | nil => cases h
    | cons c r =>
      rw [startsWsRun, Bool.and_eq_true] at h
      rw [List.cons_append, startsWsRun, Bool.and_eq_true]
      exact ⟨h.1, ih h.2⟩

lemma startsWsRun_cons_ws {m : ℕ} {l : Str} {c : Char} (hc : pyIsSpace c = true)
    (h : startsWsRun m l = true) : startsWsRun m (c :: l) = true := by
  cases m with
  | zero => rfl
  | succ j =>
    rw [startsWsRun, Bool.and_eq_true]
    exact ⟨hc, startsWsRun_mono (Nat.le_succ j) h⟩

lemma hasWsRun_zero (l : Str) : hasWsRun 0 l = true := by
  cases l <;> rfl

lemma hasWsRun_of_starts : ∀ {n : ℕ} {l : Str},
    startsWsRun n l = true → hasWsRun n l = true := by
  intro n l h
  cases l with
  | nil =>
    cases n with
    | zero => rfl
    | succ m => cases h
  | cons c r =>
    rw [hasWsRun, Bool.or_eq_true]
    exact Or.inl h

lemma hasWsRun_cons {n : ℕ} {l : Str} (c : Char) (h : hasWsRun n l = true) :
    hasWsRun n (c :: l) = true := by
  rw [hasWsRun, Bool.or_eq_true]
  exact Or.inr h

lemma hasWsRun_le : ∀ {l : Str} {n : ℕ}, hasWsRun n l = true → n ≤ l.length := by
  intro l
  induction l with
  | nil =>
    intro n h
    have : n = 0 := by simpa [hasWsRun] using h
    omega
  | cons c r ih =>
    intro n h
    rw [hasWsRun, Bool.or_eq_true] at h
    rcases h with h | h
    · exact startsWsRun_le_length h
    · calc n ≤ r.length := ih h
        _ ≤ (c :: r).length := by simp

lemma hasWsRun_append_left (v : Str) : ∀ {n : ℕ} {l : Str},
    hasWsRun n l = true → hasWsRun n (l ++ v) = true := by
  intro n l
  induction l with
  | nil =>
    intro h
    have : n = 0 := by simpa [hasWsRun] using h
    subst this
    exact hasWsRun_zero v
  | cons c r ih =>
    intro h
    rw [hasWsRun, Bool.or_eq_true] at h
    rw [List.cons_append, hasWsRun, Bool.or_eq_true]
    rcases h with h | h
    · exact Or.inl (startsWsRun_append v h)
    · exact Or.inr (ih h)

lemma hasWsRun_append_right (u : Str) {n : ℕ} {l : Str}
    (h : hasWsRun n l = true) : hasWsRun n (u ++ l) = true := by
  induction u with
  | nil => exact h
  | cons c u' ih =>
    rw [List.cons_append, hasWsRun, Bool.or_eq_true]
    exact Or.inr ih

lemma hasWsRun_isPart {n : ℕ} {t l : Str} (hinf : t <:+: l)
    (h : hasWsRun n t = true) : hasWsRun n l = true := by
  obtain ⟨u, v, rfl⟩ := hinf
  rw [List.append_assoc]
  exact hasWsRun_append_right u (hasWsRun_append_left v h)

lemma hasWsRun_mono {m n : ℕ} (hmn : m ≤ n) : ∀ {l : Str},
    hasWsRun n l = true → hasWsRun m l = true := by
  intro l
  induction l with
  | nil =>
    intro h
    have : n = 0 := by simpa [hasWsRun] using h
    have : m = 0 := by omega
    subst this
    rfl
  | cons c r ih =>
    intro h
    rw [hasWsRun, Bool.or_eq_true] at h
    rw [hasWsRun, Bool.or_eq_true]
    rcases h with h | h
    · exact Or.inl (startsWsRun_mono hmn h)
    · exact Or.inr (ih h)

/-! ## Line-ending normalization lemmas -/

lemma crToLf_crlf (rest : Str) : crToLf ('\r' :: '\n' :: rest) = '\n' :: crToLf rest := by
  simp [crToLf]

lemma crToLf_cr (d : Char) (rest : Str) (h : d ≠ '\n') :
    crToLf ('\r' :: d :: rest) = '\n' :: crToLf (d :: rest) := by
  simp [crToLf, h]

lemma crToLf_other (c d : Char) (rest : Str) (h : c ≠ '\r') :
    crToLf (c :: d :: rest) = c :: crToLf (d :: rest) := by
  simp [crToLf, h]

lemma mem_crToLf (l : Str) : ∀ x ∈ crToLf l, x ∈ l ∨ x = '\n' := by
  induction l using crToLf.induct with
  | case1 => intro x hx; cases hx
  | case2 c =>
    intro x hx
    simp only [crToLf, List.mem_singleton] at hx
    subst hx
    by_cases hc : c = '\r'
    · simp [hc]
    · simp [hc]
  | case3 rest ih =>
    intro x hx
    rw [crToLf_crlf] at hx
    rcases List.mem_cons.1 hx with rfl | hm
    · exact Or.inr rfl
    · rcases ih x hm with h1 | h1
      · exact Or.inl (List.mem_cons_of_mem _ (List.mem_cons_of_mem _ h1))
      · exact Or.inr h1
  | case4 d rest hne ih =>
    intro x hx
    rw [crToLf_cr d rest hne] at hx
    rcases List.mem_cons.1 hx with rfl | hm
    · exact Or.inr rfl
    · rcases ih x hm with h1 | h1
      · exact Or.inl (List.mem_cons_of_mem _ h1)
      · exact Or.inr h1
  | case5 c d rest hne ih =>
    intro x hx
    rw [crToLf_other c d rest hne] at hx
    rcases List.mem_cons.1 hx with rfl | hm
    · exact Or.inl (List.mem_cons_self _ _)
    · rcases ih x hm with h1 | h1
      · exact Or.inl (List.mem_cons_of_mem _ h1)
      · exact Or.inr h1

lemma crToLf_no_cr (l : Str) : '\r' ∉ crToLf l := by
  induction l using crToLf.induct with
  | case1 => intro hx; cases hx
  | case2 c =>
    intro hx
    simp only [crToLf, List.mem_singleton] at hx
    by_cases hc : c = '\r'
    · rw [if_pos hc] at hx; cases hx
    · rw [if_neg hc] at hx; exact hc hx.symm
  | case3 rest ih =>
    rw [crToLf_crlf]
    intro hx
    rcases List.mem_cons.1 hx with h1 | h1
    · cases h1
    · exact ih h1
  | case4 d rest hne ih =>
    rw [crToLf_cr d rest hne]
    intro hx
    rcases List.mem_cons.1 hx with h1 | h1
    · cases h1
    · exact ih h1
  | case5 c d rest hne ih =>
    rw [crToLf_other c d rest hne]
    intro hx
    rcases List.mem_cons.1 hx with h1 | h1
    · exact hne h1.symm
    · exact ih h1

lemma startsWsRun_crToLf (l : Str) : ∀ k, startsWsRun k (crToLf l) = true →
    startsWsRun k l = true := by
  induction l using crToLf.induct with
  | case1 => intro k h; exact h
  | case2 c =>
    intro k h
    match k with
    | 0 => rfl
    | 1 =>
      simp only [crToLf] at h
      rw [startsWsRun, Bool.and_eq_true] at h ⊢
      refine ⟨?_, rfl⟩
      by_cases hc : c = '\r'
      · subst hc; decide
      · rw [if_neg hc] at h; exact h.1
    | k + 2 =>
      simp only [crToLf] at h
      rw [startsWsRun, Bool.and_eq_true] at h
      cases h.2
  | case3 rest ih =>
    intro k h
    rw [crToLf_crlf] at h
    match k with
    | 0 => rfl
    | m + 1 =>
      rw [startsWsRun, Bool.and_eq_true] at h
      rw [startsWsRun, Bool.and_eq_true]
      exact ⟨by decide, startsWsRun_cons_ws (by decide) (ih m h.2)⟩
  | case4 d rest hne ih =>
    intro k h
    rw [crToLf_cr d rest hne] at h
    match k with
    | 0 => rfl
    | m + 1 =>
      rw [startsWsRun, Bool.and_eq_true] at h
      rw [startsWsRun, Bool.and_eq_true]
      exact ⟨by decide, ih m h.2⟩
  | case5 c d rest hne ih =>
    intro k h
    rw [crToLf_other c d rest hne] at h
    match k with
    | 0 => rfl
    | m + 1 =>
      rw [startsWsRun, Bool.and_eq_true] at h
      rw [startsWsRun, Bool.and_eq_true]
      exact ⟨h.1, ih m h.2⟩

lemma hasWsRun_crToLf (l : Str) : ∀ n, hasWsRun n (crToLf l) = true →
    hasWsRun n l = true := by
  induction l using crToLf.induct with
  | case1 => intro n h; exact h
  | case2 c =>
    intro n h
    match n with
    | 0 => exact hasWsRun_zero _
    | m + 1 =>
      simp only [crToLf] at h
      rw [hasWsRun, Bool.or_eq_true] at h
      rcases h with h | h
      · match m with
        | 0 =>
          rw [startsWsRun, Bool.and_eq_true] at h
          apply hasWsRun_of_starts
          rw [startsWsRun, Bool.and_eq_true]
          refine ⟨?_, rfl⟩
          by_cases hc : c = '\r'
          · subst hc; decide
          · rw [if_neg hc] at h; exact h.1
        | m + 1 =>
          rw [startsWsRun, Bool.and_eq_true] at h
          cases h.2
      · simp [hasWsRun] at h
  | case3 rest ih =>
    intro n h
    rw [crToLf_crlf] at h
    match n with
    | 0 => exact hasWsRun_zero _
    | m + 1 =>
      rw [hasWsRun, Bool.or_eq_true] at h
      rcases h with h | h
      · rw [startsWsRun, Bool.and_eq_true] at h
        apply hasWsRun_of_starts
        rw [startsWsRun, Bool.and_eq_true]
        exact ⟨by decide, startsWsRun_cons_ws (by decide)
          (startsWsRun_crToLf rest m h.2)⟩
      · exact hasWsRun_cons _ (hasWsRun_cons _ (ih _ h))
  | case4 d rest hne ih =>
    intro n h
    rw [crToLf_cr d rest hne] at h
    match n with
    | 0 => exact hasWsRun_zero _
    | m + 1 =>
      rw [hasWsRun, Bool.or_eq_true] at h
      rcases h with h | h
      · rw [startsWsRun, Bool.and_eq_true] at h
        apply hasWsRun_of_starts
        rw [startsWsRun, Bool.and_eq_true]
        exact ⟨by decide, startsWsRun_crToLf (d :: rest) m h.2⟩
      · exact hasWsRun_cons _ (ih _ h)
  | case5 c d rest hne ih =>
    intro n h
    rw [crToLf_other c d rest hne] at h
    match n with
    | 0 => exact hasWsRun_zero _
    | m + 1 =>
      rw [hasWsRun, Bool.or_eq_true] at h
      rcases h with h | h
      · rw [startsWsRun, Bool.and_eq_true] at h
        apply hasWsRun_of_starts
        rw [startsWsRun, Bool.and_eq_true]
        exact ⟨h.1, startsWsRun_crToLf (d :: rest) m h.2⟩
      · exact hasWsRun_cons _ (ih _ h)

/-! ## Whitespace-collapse lemmas -/

lemma mem_emitRun (run : Str) : ∀ x ∈ emitRun run, x ∈ run ∨ x = ' ' := by
  unfold emitRun
  split_ifs
  · intro x hx
    exact Or.inr (List.mem_singleton.1 hx)
  · intro x hx
    exact Or.inl hx

lemma emitRun_all_ws {run : Str} (h : ∀ x ∈ run, pyIsSpace x = true) :
    ∀ x ∈ emitRun run, pyIsSpace x = true := by
  intro x hx
  rcases mem_emitRun run x hx with h1 | h1
  · exact h x h1
  · subst h1; decide

lemma emitRun_length (run : Str) : (emitRun run).length < 3 := by
  unfold emitRun
  split_ifs with h
  · simp
  · omega

lemma startsWsRun_bound (tail : Str)
    (htail : ∀ c, tail.head? = some c → pyIsSpace c = false) :
    ∀ (seg : Str) (n : ℕ), (∀ x ∈ seg, pyIsSpace x = true) → seg.length < n →
      startsWsRun n (seg ++ tail) = false := by
  intro seg
  induction seg with
  | nil =>
    intro n _ hlen
    match n with
    | m + 1 =>
      cases tail with
      | nil => rfl
      | cons c r =>
        rw [List.nil_append, startsWsRun]
        simp [htail c rfl]
  | cons s seg' ih =>
    intro n hws hlen
    match n with
    | m + 1 =>
      rw [List.cons_append, startsWsRun]
      have hm : startsWsRun m (seg' ++ tail) = false :=
        ih m (fun x hx => hws x (List.mem_cons_of_mem _ hx)) (by simpa using hlen)
      simp [hm]

lemma hasWsRun_bound (tail : Str) (n : ℕ)
    (htail : ∀ c, tail.head? = some c → pyIsSpace c = false)
    (htailrun : hasWsRun n tail = false) :
    ∀ (seg : Str), (∀ x ∈ seg, pyIsSpace x = true) → seg.length < n →
      hasWsRun n (seg ++ tail) = false := by
  intro seg
  induction seg with
  | nil => intro _ _; simpa using htailrun
  | cons s seg' ih =>
    intro hws hlen
    rw [List.cons_append, hasWsRun]
    have h1 : startsWsRun n (s :: (seg' ++ tail)) = false := by
      have := startsWsRun_bound tail htail (s :: seg') n hws hlen
      rwa [List.cons_append] at this
    have h2 : hasWsRun n (seg' ++ tail) = false :=
      ih (fun x hx => hws x (List.mem_cons_of_mem _ hx)) (by simp at hlen ⊢; omega)
    simp [h1, h2]

lemma collapseWsAux_no_run3 : ∀ (l run : Str), (∀ x ∈ run, pyIsSpace x = true) →
    hasWsRun 3 (collapseWsAux run l) = false := by
  intro l
  induction l with
  | nil =>
    intro run hrun
    rw [collapseWsAux]
    cases hb : hasWsRun 3 (emitRun run) with
    | false => rfl
    | true => exact absurd (hasWsRun_le hb) (by have := emitRun_length run; omega)
  | cons c r ih =>
    intro run hrun
    rw [collapseWsAux]
    split_ifs with hc
    · exact ih (run ++ [c]) (by
        intro x hx
        rcases List.mem_append.1 hx with h | h
        · exact hrun x h
        · rw [List.mem_singleton.1 h]; exact hc)
    · have hcf : pyIsSpace c = false := by
        cases hcc : pyIsSpace c
        · rfl
        · exact absurd hcc hc
      apply hasWsRun_bound
      · intro d hd
        rw [List.head?_cons, Option.some_inj] at hd
        rw [hd] at hcf
        exact hcf
      · rw [hasWsRun]
        have h1 : startsWsRun 3 (c :: collapseWsAux [] r) = false := by
          rw [startsWsRun]
          simp [hcf]
        have h2 := ih [] (by intro x hx; cases hx)
        simp [h1, h2]
      · exact emitRun_all_ws hrun
      · exact emitRun_length run

lemma collapseWs_no_run3 (l : Str) : hasWsRun 3 (collapseWs l) = false :=
  collapseWsAux_no_run3 l [] (by intro x hx; cases hx)

lemma mem_collapseWsAux : ∀ (l run : Str) (x : Char),
    x ∈ collapseWsAux run l → x ∈ run ∨ x ∈ l ∨ x = ' ' := by
  intro l
  induction l with
  | nil =>
    intro run x hx
    rw [collapseWsAux] at hx
    rcases mem_emitRun run x hx with h | h
    · exact Or.inl h
    · exact Or.inr (Or.inr h)
  | cons c r ih =>
    intro run x hx
    rw [collapseWsAux] at hx
    split_ifs at hx with hc
    · rcases ih (run ++ [c]) x hx with h | h | h
      · rcases List.mem_append.1 h with h1 | h1
        · exact Or.inl h1
        · exact Or.inr (Or.inl (by rw [List.mem_singleton.1 h1]; exact List.mem_cons_self c r))
      · exact Or.inr (Or.inl (List.mem_cons_of_mem _ h))
      · exact Or.inr (Or.inr h)
    · rcases List.mem_append.1 hx with h | h
      · rcases mem_emitRun run x h with h1 | h1
        · exact Or.inl h1
        · exact Or.inr (Or.inr h1)
      · rcases List.mem_cons.1 h with rfl | h1
        · exact Or.inr (Or.inl (List.mem_cons_self _ _))
        · rcases ih [] x h1 with h2 | h2 | h2
          · cases h2
          · exact Or.inr (Or.inl (List.mem_cons_of_mem _ h2))
          · exact Or.inr (Or.inr h2)

lemma mem_collapseWs (l : Str) (x : Char) (hx : x ∈ collapseWs l) :
    x ∈ l ∨ x = ' ' := by
  rcases mem_collapseWsAux l [] x hx with h | h | h
  · cases h
  · exact Or.inl h
  · exact Or.inr h

/-! ## Sanitizer-stage lemmas -/

lemma mem_of_contains {l : Str} {a : Char} (h : l.contains a = true) : a ∈ l := by
  simpa [List.contains] using h

lemma not_mem_of_contains_false {l : Str} {a : Char} (h : l.contains a = false) :
    a ∉ l := by
  intro hmem
  have := List.elem_iff.2 hmem
  rw [List.contains] at h
  rw [h] at this
  cases this

lemma stripNul_no_nul (l : Str) : '\x00' ∉ stripNul l := by
  unfold stripNul
  split_ifs with h
  · intro hx
    have := (List.mem_filter.1 hx).2
    simp at this
  · intro hx
    have hf : l.contains '\x00' = false := by
      revert h; cases l.contains '\x00' <;> simp
    exact not_mem_of_contains_false hf hx

lemma mem_stripNul (l : Str) {x : Char} (h : x ∈ stripNul l) : x ∈ l := by
  unfold stripNul at h
  split_ifs at h
  · exact (List.mem_filter.1 h).1
  · exact h

lemma stripCtrl_no_ctrl (l : Str) : ∀ c ∈ stripCtrl l, isCtrl c = false := by
  unfold stripCtrl
  split_ifs with h
  · intro c hc
    have := (List.mem_filter.1 hc).2
    simpa using this
  · intro c hc
    have hnil : l.filter isCtrl = [] := by
      cases hf : l.filter isCtrl with
      | nil => rfl
      | cons a r => rw [hf] at h; simp at h
    have := List.filter_eq_nil_iff.1 hnil c hc
    revert this
    cases isCtrl c <;> simp

lemma mem_stripCtrl (l : Str) {x : Char} (h : x ∈ stripCtrl l) : x ∈ l := by
  unfold stripCtrl at h
  split_ifs at h
  · exact (List.mem_filter.1 h).1
  · exact h

lemma mem_normWs (l : Str) {x : Char} (h : x ∈ normWs l) : x ∈ l ∨ x = ' ' := by
  unfold normWs at h
  split_ifs at h
  · exact mem_collapseWs l x h
  · exact Or.inl h

lemma normWs_no_run10 (l : Str) : hasWsRun 10 (normWs l) = false := by
  unfold normWs
  split_ifs with h
  · cases hb : hasWsRun 10 (collapseWs l) with
    | false => rfl
    | true =>
      have h3 := hasWsRun_mono (by omega : 3 ≤ 10) hb
      rw [collapseWs_no_run3 l] at h3
      cases h3
  · revert h; cases hasWsRun 10 l <;> simp

lemma mem_normCr (l : Str) {x : Char} (h : x ∈ normCr l) : x ∈ l ∨ x = '\n' := by
  unfold normCr at h
  split_ifs at h
  · exact mem_crToLf l x h
  · exact Or.inl h

lemma normCr_no_cr (l : Str) : '\r' ∉ normCr l := by
  unfold normCr
  split_ifs with h
  · exact crToLf_no_cr l
  · exact not_mem_of_contains_false (by revert h; cases l.contains '\r' <;> simp)

lemma normCr_run (l : Str) (n : ℕ) (h : hasWsRun n (normCr l) = true) :
    hasWsRun n l = true := by
  unfold normCr at h
  split_ifs at h
  · exact hasWsRun_crToLf l n h
  · exact h

lemma stripNul_eq_self {l : Str} (h : '\x00' ∉ l) : stripNul l = l := by
  unfold stripNul
  rw [if_neg (fun hc => h (mem_of_contains hc))]

lemma stripCtrl_eq_self {l : Str} (h : ∀ c ∈ l, isCtrl c = false) :
    stripCtrl l = l := by
  unfold stripCtrl
  rw [if_neg]
  intro hlen
  have hnil : l.filter isCtrl = [] := by
    rw [List.filter_eq_nil_iff]
    intro a ha
    simp [h a ha]
  rw [hnil] at hlen
  simp at hlen

lemma normWs_eq_self {l : Str} (h : hasWsRun 10 l = false) : normWs l = l := by
  unfold normWs
  rw [if_neg (by simp [h])]

lemma normCr_eq_self {l : Str} (h : '\r' ∉ l) : normCr l = l := by
  unfold normCr
  rw [if_neg (fun hc => h (mem_of_contains hc))]

lemma cleanContent_facts (x : Str) :
    '\x00' ∉ cleanContent x ∧ (∀ c ∈ cleanContent x, isCtrl c = false) ∧
    '\r' ∉ cleanContent x ∧ hasWsRun 10 (cleanContent x) = false ∧
    pyStrip (cleanContent x) = cleanContent x := by
  unfold cleanContent
  refine ⟨?_, ?_, ?_, ?_, pyStrip_idem _⟩
  · intro hx
    have hd := pyStrip_subset _ _ hx
    rcases mem_normCr _ hd with h1 | h1
    · rcases mem_normWs _ h1 with h2 | h2
      · exact stripNul_no_nul x (mem_stripCtrl _ h2)
      · exact absurd h2 (by decide)
    · exact absurd h1 (by decide)
  · intro ch hch
    have hd := pyStrip_subset _ _ hch
    rcases mem_normCr _ hd with h1 | h1
    · rcases mem_normWs _ h1 with h2 | h2
      · exact stripCtrl_no_ctrl _ _ h2
      · subst h2; decide
    · subst h1; decide
  · intro hx
    exact normCr_no_cr _ (pyStrip_subset _ _ hx)
  · cases hb : hasWsRun 10 (pyStrip (normCr (normWs (stripCtrl (stripNul x))))) with
    | false => rfl
    | true =>
      have h1 := hasWsRun_isPart (pyStrip_isPart _) hb
      have h2 := normCr_run _ 10 h1
      rw [normWs_no_run10 _] at h2
      cases h2

lemma cleanContent_eq_self {l : Str} (h1 : '\x00' ∉ l)
    (h2 : ∀ c ∈ l, isCtrl c = false) (h3 : '\r' ∉ l)
    (h4 : hasWsRun 10 l = false) (h5 : pyStrip l = l) : cleanContent l = l := by
  unfold cleanContent
  rw [stripNul_eq_self h1, stripCtrl_eq_self h2, normWs_eq_self h4,
    normCr_eq_self h3, h5]

/-! ## C3: configuration validation -/

/-- C3 counterexample: a configuration with `chunk_overlap = chunk_size`
(`100 = 100`, i.e. `chunk_overlap ≥ chunk_size`) is accepted both by
`ChunkingConfig` construction (which has no validators) and by service
construction (the splitter library rejects only the strict
`chunk_overlap > chunk_size`): no `InvalidConfig` error is raised anywhere,
contradicting the claimed rejection of `chunk_overlap ≥ chunk_size`. -/
theorem config_overlap_eq_size_accepted :
    ChunkingConfig.construct 100 100 defaultChunkingConfig.separators 50 2000 true true =
      .ok { defaultChunkingConfig with chunk_size := 100, chunk_overlap := 100 } ∧
    chunking_service_init { defaultChunkingConfig with chunk_size := 100, chunk_overlap := 100 } =
      .ok { defaultChunkingConfig with chunk_size := 100, chunk_overlap := 100 } := by
  constructor
  · rfl
  · unfold chunking_service_init
    rw [if_neg (by decide)]

/-- C3 amended: `ChunkingConfig` construction never fails (the pydantic
model has no validators), and the overlap check happens at service
construction instead, failing precisely when `chunk_overlap > chunk_size`
(so `chunk_overlap = chunk_size` is accepted). -/
theorem config_construct_and_init_check (cs co mn mx : ℤ) (seps : List Str)
    (ps pp : Bool) (c : ChunkingConfig) :
    ChunkingConfig.construct cs co seps mn mx ps pp =
      .ok ⟨cs, co, seps, mn, mx, ps, pp⟩ ∧
    ((∃ e, chunking_service_init c = .error e) ↔ c.chunk_size < c.chunk_overlap) := by
  refine ⟨rfl, ?_⟩
  unfold chunking_service_init
  split_ifs with h
  · exact ⟨fun _ => h, fun _ => ⟨_, rfl⟩⟩
  · constructor
    · rintro ⟨e, he⟩
      cases he
    · intro hk
      exact absurd hk h

/-! ## C4: separator policy -/

/-- C4 counterexample: the default-constructed configuration has
`preserve_sentence_boundaries = true`, yet its separator list (the non-empty
default of the `separators` field, which overrides the derived list) does
not contain the period-followed-by-newline separator. -/
theorem default_config_separators_no_sentence_newline :
    defaultChunkingConfig.preserve_sentence_boundaries = true ∧
    (".\n").data ∉ get_semantic_separators defaultChunkingConfig := by
  decide

/-- C4 amended: a non-empty `config.separators` overrides the derived list
verbatim; the derived list (used only when `config.separators` is empty) is
exactly as the claim describes it, and then contains `".\n"` whenever
sentence boundaries are preserved.  Since the default `separators` value is
non-empty, a default-constructed config never uses the derived list. -/
theorem separator_policy (c c' : ChunkingConfig) (h : c.separators = [])
    (h' : c'.separators ≠ []) :
    get_semantic_separators c =
      claimedDerivedSeparators c.preserve_paragraph_boundaries
        c.preserve_sentence_boundaries ∧
    get_semantic_separators c' = c'.separators ∧
    (c.preserve_sentence_boundaries = true →
      (".\n").data ∈ get_semantic_separators c) := by
  have h1 : get_semantic_separators c =
      claimedDerivedSeparators c.preserve_paragraph_boundaries
        c.preserve_sentence_boundaries := by
    simp only [get_semantic_separators, claimedDerivedSeparators, h]
    cases c.preserve_paragraph_boundaries <;>
      cases c.preserve_sentence_boundaries <;> rfl
  refine ⟨h1, ?_, ?_⟩
  · simp only [get_semantic_separators]
    rw [if_pos (by simp [List.isEmpty_iff, h'])]
  · intro hps
    rw [h1, hps]
    cases c.preserve_paragraph_boundaries <;> decide

/-- Witness for C4 at concrete configurations: the empty-separator config
uses the derived list (which contains `".\n"`), the default config uses its
own list. -/
theorem separator_policy_witness :
    get_semantic_separators { defaultChunkingConfig with separators := [] } =
      claimedDerivedSeparators true true ∧
    get_semantic_separators defaultChunkingConfig = defaultChunkingConfig.separators ∧
    (".\n").data ∈ get_semantic_separators { defaultChunkingConfig with separators := [] } := by
  have h := separator_policy { defaultChunkingConfig with separators := [] }
    defaultChunkingConfig rfl (by decide)
  exact ⟨h.1, h.2.1, h.2.2 rfl⟩

/-! ## C6: chunk-id sanitization -/

lemma pyWordNat_ascii_agree : ∀ n : ℕ, n < 128 → pyWordNat n = asciiWordNat n := by
  decide

/-- C6 counterexample: the source sanitizer uses Python's Unicode-aware `\w`,
so the Latin-1 letter `é` is kept verbatim, while the claimed ASCII rule
`[A-Za-z0-9_-]` would replace it (and collapse to `"unknown"`): the claimed
description of `_sanitize_id_component` fails on the component `"é"`. -/
theorem sanitize_unicode_divergence :
    sanitize_id_component [('é' : Char)] = [('é' : Char)] ∧
    sanitize_id_component_specAscii [('é' : Char)] = ("unknown").data ∧
    sanitize_id_component [('é' : Char)] ≠ sanitize_id_component_specAscii [('é' : Char)] := by
  decide

/-- C6 amended: on components made of ASCII characters the sanitizer behaves
exactly as the claim describes (replace outside `[A-Za-z0-9_-]`, collapse
underscore runs, trim, `"unknown"` fallback) — on non-ASCII components
Python's wider `\w` applies instead; the claim's concrete consequence holds:
for `doctype="Test/Document"`, `docname="DOC-001@#"`, `field_name="a b"`,
`chunk_index=0` the generated id is `"Test_Document_DOC-001_a_b_0"`, which
contains no `/`, `@`, `#` or space and ends with `"_0"`. -/
theorem sanitize_id_ascii_spec (comp : Str) (h : ∀ c ∈ comp, c.toNat < 128) :
    sanitize_id_component comp = sanitize_id_component_specAscii comp ∧
    ((create_document_chunk defaultChunkingConfig ("Test/Document").data
        ("DOC-001@#").data ("a b").data ("Short text.").data 0 1 none none none
        sampleEnv).id = ("Test_Document_DOC-001_a_b_0").data ∧
     '/' ∉ (create_document_chunk defaultChunkingConfig ("Test/Document").data
        ("DOC-001@#").data ("a b").data ("Short text.").data 0 1 none none none
        sampleEnv).id ∧
     '@' ∉ (create_document_chunk defaultChunkingConfig ("Test/Document").data
        ("DOC-001@#").data ("a b").data ("Short text.").data 0 1 none none none
        sampleEnv).id ∧
     '#' ∉ (create_document_chunk defaultChunkingConfig ("Test/Document").data
        ("DOC-001@#").data ("a b").data ("Short text.").data 0 1 none none none
        sampleEnv).id ∧
     ' ' ∉ (create_document_chunk defaultChunkingConfig ("Test/Document").data
        ("DOC-001@#").data ("a b").data ("Short text.").data 0 1 none none none
        sampleEnv).id ∧
     (("_0").data.isSuffixOf (create_document_chunk defaultChunkingConfig
        ("Test/Document").data ("DOC-001@#").data ("a b").data
        ("Short text.").data 0 1 none none none sampleEnv).id) = true) := by
  constructor
  · unfold sanitize_id_component sanitize_id_component_specAscii
    have hmap : comp.map (fun c => if pyIsWordChar c || c = '-' then c else '_') =
        comp.map (fun c => if asciiWordChar c || c = '-' then c else '_') := by
      apply List.map_congr_left
      intro c hc
      have := pyWordNat_ascii_agree c.toNat (h c hc)
      simp only [pyIsWordChar, asciiWordChar, this]
    rw [hmap]
  · decide

/-- Witness for C6 at a concrete ASCII component. -/
theorem sanitize_id_ascii_spec_witness :
    sanitize_id_component ("DOC-001@#").data =
      sanitize_id_component_specAscii ("DOC-001@#").data ∧
    ((create_document_chunk defaultChunkingConfig ("Test/Document").data
        ("DOC-001@#").data ("a b").data ("Short text.").data 0 1 none none none
        sampleEnv).id = ("Test_Document_DOC-001_a_b_0").data ∧
     '/' ∉ (create_document_chunk defaultChunkingConfig ("Test/Document").data
        ("DOC-001@#").data ("a b").data ("Short text.").data 0 1 none none none
        sampleEnv).id ∧
     '@' ∉ (create_document_chunk defaultChunkingConfig ("Test/Document").data
        ("DOC-001@#").data ("a b").data ("Short text.").data 0 1 none none none
        sampleEnv).id ∧
     '#' ∉ (create_document_chunk defaultChunkingConfig ("Test/Document").data
        ("DOC-001@#").data ("a b").data ("Short text.").data 0 1 none none none
        sampleEnv).id ∧
     ' ' ∉ (create_document_chunk defaultChunkingConfig ("Test/Document").data
        ("DOC-001@#").data ("a b").data ("Short text.").data 0 1 none none none
        sampleEnv).id ∧
     (("_0").data.isSuffixOf (create_document_chunk defaultChunkingConfig
        ("Test/Document").data ("DOC-001@#").data ("a b").data
        ("Short text.").data 0 1 none none none sampleEnv).id) = true) :=
  sanitize_id_ascii_spec ("DOC-001@#").data (by decide)

/-! ## C2: `error_count` versus `warnings` -/

/-- C2 counterexample: a chunk created with one sanitizer warning carries
`error_count = 0`, not `len(warnings) = 1` (`_create_document_chunk` passes
the literal `error_count=0`). -/
theorem chunk_error_count_not_warning_count :
    let ch := create_document_chunk defaultChunkingConfig ("t").data ("d").data
      ("f").data ("Short text.").data 0 1 none none
      (some [("Removed null bytes from content").data]) sampleEnv
    ch.metadata.error_count ≠ ch.metadata.warnings.length := by
  decide

/-- C2 amended: at creation `error_count` is always `0` whatever warnings
the chunk carries; `validate_and_repair` (here: its per-chunk body
`repair_chunk`) on a kept chunk whose re-sanitization emitted warnings sets
`error_count` to the number of warnings added by that pass, while
`metadata.warnings` becomes the previous warnings plus the new ones. -/
theorem error_count_semantics (cfg : ChunkingConfig) (dt dn fn content : Str)
    (i tot : ℕ) (url : Option Str) (w : List Str) (env : TimeEnv)
    (c rc : DocumentChunk) (hrep : repair_chunk cfg c = some rc)
    (hw : (handle_edge_cases c.content).2 ≠ []) :
    (create_document_chunk cfg dt dn fn content i tot url none (some w) env).metadata.error_count = 0 ∧
    (create_document_chunk cfg dt dn fn content i tot url none (some w) env).metadata.warnings = w ∧
    rc.metadata.error_count = (handle_edge_cases c.content).2.length ∧
    rc.metadata.warnings = c.metadata.warnings ++ (handle_edge_cases c.content).2 := by
  refine ⟨rfl, rfl, ?_⟩
  have hisEmpty : (!(handle_edge_cases c.content).2.isEmpty) = true := by
    simp [List.isEmpty_iff, hw]
  simp only [repair_chunk, hisEmpty, if_true] at hrep
  split_ifs at hrep
  all_goals cases hrep
  all_goals exact ⟨rfl, rfl⟩

/-- Witness for C2: the chunk with one 1001-character line is repaired in
place (content unchanged), and the long-line warning drives both fields. -/
theorem error_count_semantics_witness :
    (create_document_chunk defaultChunkingConfig ("t").data ("d").data ("f").data
      ("Hello").data 0 1 none none (some [("w").data]) sampleEnv).metadata.error_count = 0 ∧
    (create_document_chunk defaultChunkingConfig ("t").data ("d").data ("f").data
      ("Hello").data 0 1 none none (some [("w").data]) sampleEnv).metadata.warnings = [("w").data] ∧
    longLineChunkRepaired.metadata.error_count =
      (handle_edge_cases longLineChunk.content).2.length ∧
    longLineChunkRepaired.metadata.warnings =
      longLineChunk.metadata.warnings ++ (handle_edge_cases longLineChunk.content).2 :=
  error_count_semantics defaultChunkingConfig ("t").data ("d").data ("f").data
    ("Hello").data 0 1 none [("w").data] sampleEnv longLineChunk
    longLineChunkRepaired (by decide) (by decide)

/-! ## C9: determinism of `chunk_document_field` -/

lemma chunkKey_create_env (cfg : ChunkingConfig) (dt dn fn content : Str)
    (i tot : ℕ) (url : Option Str) (ptms : Option ℚ) (w : Option (List Str))
    (env1 env2 : TimeEnv) :
    chunkKey (create_document_chunk cfg dt dn fn content i tot url ptms w env1) =
    chunkKey (create_document_chunk cfg dt dn fn content i tot url ptms w env2) := rfl

lemma build_chunks_env (cfg : ChunkingConfig) (dt dn fn : Str)
    (url : Option Str) (w : List Str) (total : ℕ) (env1 env2 : TimeEnv) :
    ∀ (l : List Str) (i : ℕ),
      (build_chunks cfg dt dn fn url w env1 total l i).map chunkKey =
      (build_chunks cfg dt dn fn url w env2 total l i).map chunkKey := by
  intro l
  induction l with
  | nil => intro i; rfl
  | cons t rest ih =>
    intro i
    by_cases h : pyStrip t = []
    · simp only [build_chunks, if_pos h]
      exact ih (i + 1)
    · simp only [build_chunks, if_neg h, List.map_cons]
      rw [chunkKey_create_env cfg dt dn fn (pyStrip t) i total url none (some w) env1 env2,
        ih (i + 1)]

/-- C9: `chunk_document_field` is deterministic up to the clock: two runs
under arbitrary clock environments produce the same number of chunks with
pairwise identical content, id and `semantic_boundaries` (timestamp and
`processing_time_ms` are the only fields fed from the clock). -/
theorem chunk_field_deterministic (cfg : ChunkingConfig)
    (dt dn fn content : Str) (url : Option Str) (env1 env2 : TimeEnv) :
    (chunk_document_field cfg dt dn fn content url env1).length =
      (chunk_document_field cfg dt dn fn content url env2).length ∧
    (chunk_document_field cfg dt dn fn content url env1).map chunkKey =
      (chunk_document_field cfg dt dn fn content url env2).map chunkKey := by
  have hmap : (chunk_document_field cfg dt dn fn content url env1).map chunkKey =
      (chunk_document_field cfg dt dn fn content url env2).map chunkKey := by
    unfold chunk_document_field chunk_document_field_core
    split_ifs
    · rfl
    · rfl
    · simp only [create_single_chunk, List.map_cons, List.map_nil]
      rw [chunkKey_create_env]
    · split
      · rfl
      · split_ifs
        · rfl
        · exact build_chunks_env cfg dt dn fn url _ _ env1 env2 _ 0
  refine ⟨?_, hmap⟩
  have := congrArg List.length hmap
  simpa using this

/-! ## C7: produced chunk contents are trimmed and non-empty -/

lemma hec_fst (x : Str) : (handle_edge_cases x).1 = cleanContent x := by
  by_cases hx : x = []
  · subst hx; decide
  · simp only [handle_edge_cases, cleanContent, if_neg hx, apply_ite Prod.fst]
    split_ifs <;> first
      | rfl
      | (rename_i hfin; exact hfin.symm)

lemma cleanContent_stripped (x : Str) :
    pyStrip (cleanContent x) = cleanContent x := by
  simp only [cleanContent]
  exact pyStrip_idem _

lemma create_content (cfg : ChunkingConfig) (dt dn fn c : Str) (i t : ℕ)
    (url : Option Str) (p : Option ℚ) (w : Option (List Str)) (env : TimeEnv) :
    (create_document_chunk cfg dt dn fn c i t url p w env).content = c := rfl

lemma mem_build_chunks (cfg : ChunkingConfig) (dt dn fn : Str)
    (url : Option Str) (w : List Str) (env : TimeEnv) (total : ℕ) :
    ∀ (l : List Str) (i : ℕ) (ch : DocumentChunk),
      ch ∈ build_chunks cfg dt dn fn url w env total l i →
      pyStrip ch.content = ch.content ∧ ch.content ≠ [] := by
  intro l
  induction l with
  | nil => intro i ch hch; cases hch
  | cons t rest ih =>
    intro i ch hch
    by_cases h : pyStrip t = []
    · rw [build_chunks, if_pos h] at hch
      exact ih (i + 1) ch hch
    · rw [build_chunks, if_neg h] at hch
      rcases List.mem_cons.1 hch with rfl | hmem
      · rw [create_content]
        exact ⟨pyStrip_idem t, h⟩
      · exact ih (i + 1) ch hmem

/-- C7: every chunk produced by `chunk_document_field` — on the splitter
path, the short-content single-chunk path and the error-fallback path (any
value of `splitRes`, including the exception outcome `none`) — has content
that equals its own trim and is non-empty. -/
theorem chunk_contents_trimmed_nonempty (cfg : ChunkingConfig)
    (dt dn fn content : Str) (url : Option Str) (splitRes : Option (List Str))
    (env : TimeEnv) (ch : DocumentChunk)
    (hch : ch ∈ chunk_document_field_core cfg dt dn fn content url splitRes env) :
    pyStrip ch.content = ch.content ∧ ch.content ≠ [] := by
  unfold chunk_document_field_core at hch
  split_ifs at hch with h1 h2 h3
  · cases hch
  · cases hch
  · simp only [create_single_chunk, List.mem_singleton] at hch
    subst hch
    rw [create_content, hec_fst]
    rw [hec_fst] at h2
    exact ⟨cleanContent_stripped content, h2⟩
  · rcases hsplit : splitRes with _ | text_chunks
    · rw [hsplit] at hch
      simp only [create_single_chunk, List.mem_singleton] at hch
      subst hch
      rw [create_content, hec_fst]
      rw [hec_fst] at h2
      exact ⟨cleanContent_stripped content, h2⟩
    · rw [hsplit] at hch
      dsimp only at hch
      split_ifs at hch with h4
      · cases hch
      · exact mem_build_chunks cfg dt dn fn url _ env _ text_chunks 0 ch hch

/-- Witness for C7: the single chunk produced for a short input. -/
theorem chunk_contents_trimmed_nonempty_witness :
    pyStrip (create_document_chunk defaultChunkingConfig ("t").data ("d").data
        ("f").data ("Short text.").data 0 1 none none (some []) sampleEnv).content =
      (create_document_chunk defaultChunkingConfig ("t").data ("d").data ("f").data
        ("Short text.").data 0 1 none none (some []) sampleEnv).content ∧
    (create_document_chunk defaultChunkingConfig ("t").data ("d").data ("f").data
      ("Short text.").data 0 1 none none (some []) sampleEnv).content ≠ [] :=
  chunk_contents_trimmed_nonempty defaultChunkingConfig ("t").data ("d").data
    ("f").data ("Short text.").data none (some []) sampleEnv _ (by decide)

/-! ## C1: chunk-index contiguity -/

lemma build_chunks_no_skip (cfg : ChunkingConfig) (dt dn fn : Str)
    (url : Option Str) (w : List Str) (env : TimeEnv) (total : ℕ) :
    ∀ (l : List Str), (∀ s ∈ l, pyStrip s ≠ []) → ∀ (i : ℕ),
      (build_chunks cfg dt dn fn url w env total l i).map
          (fun ch => ch.metadata.chunk_index) = List.range' i l.length ∧
      (build_chunks cfg dt dn fn url w env total l i).length = l.length ∧
      ∀ ch ∈ build_chunks cfg dt dn fn url w env total l i,
        ch.metadata.total_chunks = total := by
  intro l
  induction l with
  | nil =>
    intro _ i
    refine ⟨rfl, rfl, ?_⟩
    intro ch hch
    cases hch
  | cons t rest ih =>
    intro h i
    have ht : pyStrip t ≠ [] := h t (List.mem_cons_self t rest)
    have hrest : ∀ s ∈ rest, pyStrip s ≠ [] := fun s hs => h s (List.mem_cons_of_mem t hs)
    obtain ⟨ih1, ih2, ih3⟩ := ih hrest (i + 1)
    rw [build_chunks, if_neg ht]
    refine ⟨?_, ?_, ?_⟩
    · simp only [List.map_cons, ih1, List.length_cons, List.range'_succ]
      rfl
    · simp [ih2]
    · intro ch hch
      rcases List.mem_cons.1 hch with rfl | hmem
      · rfl
      · exact ih3 ch hmem

/-- C1 counterexample: with the (construction-accepted) configuration
`chunk_size=2, chunk_overlap=0, separators=["X"], min_chunk_size=1` and the
field content `"bbbX   Xccc"`, the splitter returns
`["bbb", "   ", "ccc"]`; the whitespace-only middle piece is skipped but its
enumeration index is not reused, so the call returns two chunks with
`chunk_index` values `[0, 2]` (not `0..n-1`) and `total_chunks = 3 ≠ 2`. -/
theorem index_contiguity_counterexample :
    let chunks := chunk_document_field counterexampleConfig ("t").data ("d").data
      ("f").data ("bbbX   Xccc").data none sampleEnv
    ¬ (chunks.map (fun ch => ch.metadata.chunk_index) = List.range chunks.length ∧
       ∀ ch ∈ chunks, ch.metadata.total_chunks = chunks.length) := by
  decide

/-- C1 amended: whenever no piece returned by the splitter is
whitespace-only (in particular for the default configuration, whose
separator list ends with the character-level fallback), the returned chunks
carry `chunk_index` values exactly `0..n-1` in order and
`total_chunks = n`; in general `chunk_index` is the piece's enumeration
index in the splitter output and `total_chunks` its length, so a
whitespace-only piece (possible only under a custom separator list) breaks
contiguity. -/
theorem index_contiguity (cfg : ChunkingConfig) (dt dn fn content : Str)
    (url : Option Str) (env : TimeEnv)
    (h : ∀ s ∈ split_text cfg (handle_edge_cases content).1, pyStrip s ≠ []) :
    (chunk_document_field cfg dt dn fn content url env).map
        (fun ch => ch.metadata.chunk_index) =
      List.range (chunk_document_field cfg dt dn fn content url env).length ∧
    ∀ ch ∈ chunk_document_field cfg dt dn fn content url env,
      ch.metadata.total_chunks =
        (chunk_document_field cfg dt dn fn content url env).length := by
  unfold chunk_document_field chunk_document_field_core
  split_ifs with h1 h2 h3
  · exact ⟨rfl, by intro ch hch; cases hch⟩
  · exact ⟨rfl, by intro ch hch; cases hch⟩
  · refine ⟨rfl, ?_⟩
    intro ch hch
    simp only [create_single_chunk, List.mem_singleton] at hch
    subst hch
    rfl
  · dsimp only
    split_ifs with h4
    · exact ⟨rfl, by intro ch hch; cases hch⟩
    · obtain ⟨hmap, hlen, htot⟩ := build_chunks_no_skip cfg dt dn fn url
        (handle_edge_cases content).2 env (split_text cfg (handle_edge_cases content).1).length
        (split_text cfg (handle_edge_cases content).1) h 0
      refine ⟨?_, ?_⟩
      · rw [hmap, hlen, List.range_eq_range']
      · intro ch hch
        rw [hlen]
        exact htot ch hch

/-- Witness for C1: the default configuration on a 76-character two-sentence
field, which the splitter merges into one piece. -/
theorem index_contiguity_witness :
    (chunk_document_field defaultChunkingConfig ("t").data ("d").data ("f").data
        ("First sentence here is long enough. Second part of the text continues here.").data
        none sampleEnv).map (fun ch => ch.metadata.chunk_index) =
      List.range (chunk_document_field defaultChunkingConfig ("t").data ("d").data
        ("f").data
        ("First sentence here is long enough. Second part of the text continues here.").data
        none sampleEnv).length ∧
    ∀ ch ∈ chunk_document_field defaultChunkingConfig ("t").data ("d").data ("f").data
        ("First sentence here is long enough. Second part of the text continues here.").data
        none sampleEnv,
      ch.metadata.total_chunks =
        (chunk_document_field defaultChunkingConfig ("t").data ("d").data ("f").data
          ("First sentence here is long enough. Second part of the text continues here.").data
          none sampleEnv).length :=
  index_contiguity defaultChunkingConfig ("t").data ("d").data ("f").data
    ("First sentence here is long enough. Second part of the text continues here.").data
    none sampleEnv (by decide)

/-! ## C5: sanitizer idempotence -/

/-- C5 counterexample: on a single 1001-character line the first sanitizer
pass changes nothing but emits the long-line warning, and the second pass on
the cleaned output emits the very same warning again — so `sanitize` is not
warning-free on the second pass (even though the cleaned string itself is
unchanged). -/
theorem sanitizer_second_pass_warns :
    ¬ ((handle_edge_cases (handle_edge_cases (List.replicate 1001 'a')).1).1 =
         (handle_edge_cases (List.replicate 1001 'a')).1 ∧
       (handle_edge_cases (handle_edge_cases (List.replicate 1001 'a')).1).2 = []) := by
  decide

/-- C5 amended: the sanitizer is idempotent on the cleaned string —
`sanitize(sanitize(x).cleaned).cleaned = sanitize(x).cleaned` for every
input — but the second pass may re-emit warnings for conditions that are
detected without modifying the content (the long-line check), so
warning-freeness of the second pass does not hold. -/
theorem sanitizer_idempotent (x : Str) :
    (handle_edge_cases (handle_edge_cases x).1).1 = (handle_edge_cases x).1 := by
  rw [hec_fst x, hec_fst (cleanContent x)]
  obtain ⟨h1, h2, h3, h4, h5⟩ := cleanContent_facts x
  exact cleanContent_eq_self h1 h2 h3 h4 h5

end Dossier
